import Mathlib

/-!
Shallow embedding of the curation pipeline in `main.py` of the
quant-daily-report repository.

The run-relevant state is carried explicitly.  Network effects are modelled
as parameters: the arXiv result stream and the Scholar result list are inputs,
and the scoring oracle is a function `RawItem → Option AnalysisResult`
(`none` models a transport/parse failure of the LLM call).  Display-only
fields (`url`, `source`, `date`, `broker`, `fetch_date`, `id`) are omitted:
they are copied verbatim into the output records and no invariant concerns
them.  Python's `list.sort(key=..., reverse=True)` is a stable descending
sort; it is embedded as the stable insertion sort `sortByScoreDesc`.
-/

namespace QuantDaily

/-- CONFIG["MAX_HISTORY_SIZE"]. -/
def MAX_HISTORY_SIZE : Nat := 3000

/-- CONFIG["MAX_REPORT_SIZE"]. -/
def MAX_REPORT_SIZE : Nat := 500

/-- CONFIG["MAX_EMAIL_ITEM_LIMIT"]. -/
def MAX_EMAIL_ITEM_LIMIT : Nat := 50

/-- CONFIG["MIN_SCORE"] = 5.0. -/
def MIN_SCORE : ℚ := 5

/-- CONFIG["PUSH_THRESHOLD"] = 6.0. -/
def PUSH_THRESHOLD : ℚ := 6

/-- CONFIG["FINAL_SAVE_COUNT"]. -/
def FINAL_SAVE_COUNT : Nat := 15

/-- CONFIG["DINGTALK_PUSH_LIMIT"]. -/
def DINGTALK_PUSH_LIMIT : Nat := 5

/-- CONFIG["CANDIDATE_POOL_SIZE"]. -/
def CANDIDATE_POOL_SIZE : Nat := 20

/-- One raw result of the arXiv search stream (`r` in `fetch_arxiv_smart`). -/
structure ArxivResult where
  title : String
  abstract : String
  categories : List String
deriving DecidableEq

/-- A candidate record as built by the adapters (title plus abstract; the
remaining fields are display-only attribution). -/
structure RawItem where
  title : String
  abstract : String
deriving DecidableEq

/-- The JSON object returned by the scoring oracle: `{"score": ..., "summary": ...}`. -/
structure AnalysisResult where
  score : ℚ
  summary : String
deriving DecidableEq

/-- A candidate after `item.update(result)`: the fields the pipeline's
invariants mention. -/
structure ScoredItem where
  title : String
  score : ℚ
  summary : String
deriving DecidableEq

/-- `str.startswith(pre)`, embedded as a character-list prefix test. -/
def strStartsWith (s pre : String) : Bool :=
  pre.toList.isPrefixOf s.toList

/-- `any(tag.startswith(('q-fin', 'cs', 'stat')) for tag in r.categories)`. -/
def categoryOk (r : ArxivResult) : Bool :=
  r.categories.any fun tag =>
    strStartsWith tag "q-fin" || strStartsWith tag "cs" || strStartsWith tag "stat"

/-- The scan loop of `fetch_arxiv_smart`: walk the result stream in order,
drop items failing the category filter, drop items whose title is in
`history_titles`, append the rest, and break as soon as the accumulated
candidate list reaches `target`. -/
def fetch_arxiv_go (history_titles : List String) (target : Nat) :
    List ArxivResult → List RawItem → List RawItem
  | [], candidates => candidates
  | r :: rest, candidates =>
    if ¬ categoryOk r then fetch_arxiv_go history_titles target rest candidates
    else if r.title ∈ history_titles then fetch_arxiv_go history_titles target rest candidates
    else if target ≤
        (candidates ++ [({ title := r.title, abstract := r.abstract } : RawItem)]).length then
      candidates ++ [({ title := r.title, abstract := r.abstract } : RawItem)]
    else
      fetch_arxiv_go history_titles target rest
        (candidates ++ [({ title := r.title, abstract := r.abstract } : RawItem)])

/-- `fetch_arxiv_smart(history_titles)` applied to a given result stream
`feed` (the arXiv API response; a provider fault yields `feed = []`). -/
def fetch_arxiv_smart (history_titles : List String) (feed : List ArxivResult) :
    List RawItem :=
  fetch_arxiv_go history_titles CANDIDATE_POOL_SIZE feed []

/-- `analyze_with_llm`: on oracle failure (`none`) the bare `except` returns
the fixed fallback `{"score": 0, "summary": "Error"}`. -/
def analyze_with_llm (oracle : RawItem → Option AnalysisResult) (item : RawItem) :
    AnalysisResult :=
  match oracle item with
  | some r => r
  | none => { score := 0, summary := "Error" }

/-- The two accumulating lists of `main`: `new_analyzed_titles` and
`qualified_items`. -/
structure RunState where
  new_analyzed_titles : List String
  qualified_items : List ScoredItem
deriving DecidableEq

/-- The acceptance step shared by both phases:
`if result['score'] >= CONFIG['MIN_SCORE']: ... qualified_items.append(item)`. -/
def accept (result : AnalysisResult) (item : RawItem) (st : RunState) : RunState :=
  if MIN_SCORE ≤ result.score then
    { st with qualified_items :=
        st.qualified_items ++
          [{ title := item.title, score := result.score, summary := result.summary }] }
  else st

/-- Phase one of `main`: the loop over the arXiv candidates.  The quota test
at the top of each iteration is the `break`; every analyzed title is appended
to `new_analyzed_titles` before the score test. -/
def primary_loop (oracle : RawItem → Option AnalysisResult) :
    List RawItem → RunState → RunState
  | [], st => st
  | item :: rest, st =>
    if FINAL_SAVE_COUNT ≤ st.qualified_items.length then st
    else
      let result := analyze_with_llm oracle item
      primary_loop oracle rest
        (accept result item
          { st with new_analyzed_titles := st.new_analyzed_titles ++ [item.title] })

/-- Phase two of `main`: the loop over the Scholar candidates.  Besides the
quota `break`, it skips any title already in `history_titles` or already in
`new_analyzed_titles`. -/
def fallback_loop (oracle : RawItem → Option AnalysisResult)
    (history_titles : List String) :
    List RawItem → RunState → RunState
  | [], st => st
  | item :: rest, st =>
    if FINAL_SAVE_COUNT ≤ st.qualified_items.length then st
    else if item.title ∈ history_titles then
      fallback_loop oracle history_titles rest st
    else if item.title ∈ st.new_analyzed_titles then
      fallback_loop oracle history_titles rest st
    else
      let result := analyze_with_llm oracle item
      fallback_loop oracle history_titles rest
        (accept result item
          { st with new_analyzed_titles := st.new_analyzed_titles ++ [item.title] })

/-- Stable descending insertion, keeping an earlier element in front of any
later element of equal score. -/
def insertDesc (x : ScoredItem) : List ScoredItem → List ScoredItem
  | [] => [x]
  | y :: ys => if y.score ≤ x.score then x :: y :: ys else y :: insertDesc x ys

/-- `qualified_items.sort(key=lambda x: x['score'], reverse=True)`: a stable
sort by score descending, embedded as stable insertion sort. -/
def sortByScoreDesc : List ScoredItem → List ScoredItem
  | [] => []
  | x :: xs => insertDesc x (sortByScoreDesc xs)

/-- Outcome of reading one of the two persisted JSON files. -/
inductive ReadResult (α : Type) where
  | missing
  | malformed
  | ok (v : α)

/-- Loading `history.json` in `main`: the default `[]` survives both a
missing file (the `os.path.exists` guard) and a malformed one (the
`try/except: pass`). -/
def load_history_titles : ReadResult (List String) → List String
  | .missing => []
  | .malformed => []
  | .ok v => v

/-- Loading `reports.json` in `main`: a missing file yields `[]`, but the
`json.load` call has no exception handler, so a malformed file raises out of
`main` (modelled as `Except.error`). -/
def load_old_reports : ReadResult (List ScoredItem) → Except Unit (List ScoredItem)
  | .missing => .ok []
  | .malformed => .error ()
  | .ok v => .ok v

/-- Saving `history.json`: written only when `new_analyzed_titles` is
non-empty, as the new batch prepended and truncated to `MAX_HISTORY_SIZE`. -/
def save_history (new_analyzed_titles history_titles : List String) : List String :=
  if new_analyzed_titles = [] then history_titles
  else (new_analyzed_titles ++ history_titles).take MAX_HISTORY_SIZE

/-- Saving `reports.json`: the sorted batch prepended to the old reports and
truncated to `MAX_REPORT_SIZE`. -/
def save_reports (qualified_sorted old_reports : List ScoredItem) : List ScoredItem :=
  (qualified_sorted ++ old_reports).take MAX_REPORT_SIZE

/-- `top_picks = [r for r in qualified_items if r['score'] >= PUSH_THRESHOLD]`. -/
def top_picks (qualified_items : List ScoredItem) : List ScoredItem :=
  qualified_items.filter fun r => PUSH_THRESHOLD ≤ r.score

/-- The items rendered into the DingTalk digest: `top_picks[:push_limit]`. -/
def ding_pushed_items (qualified_items : List ScoredItem) : List ScoredItem :=
  (top_picks qualified_items).take DINGTALK_PUSH_LIMIT

/-- The trailing notice of the DingTalk digest:
`if len(qualified_items) > push_limit:` append "还有 N 篇已发邮箱" with
`N = len(qualified_items) - push_limit`. -/
def ding_notice (qualified_items : List ScoredItem) : Option Nat :=
  if DINGTALK_PUSH_LIMIT < qualified_items.length then
    some (qualified_items.length - DINGTALK_PUSH_LIMIT)
  else none

/-- The DingTalk push of a run: sent only when `top_picks` is non-empty, and
then carries the truncated item list and the optional notice. -/
def ding_push (qualified_items : List ScoredItem) :
    Option (List ScoredItem × Option Nat) :=
  if top_picks qualified_items = [] then none
  else some (ding_pushed_items qualified_items, ding_notice qualified_items)

/-- The state after the primary (arXiv) phase, starting from empty lists. -/
def primary_state (oracle : RawItem → Option AnalysisResult)
    (arxivFeed : List ArxivResult) (history_titles : List String) : RunState :=
  primary_loop oracle (fetch_arxiv_smart history_titles arxivFeed)
    { new_analyzed_titles := [], qualified_items := [] }

/-- The state after both phases: the fallback phase runs only when the
primary phase left `qualified_items` strictly below the quota. -/
def after_phases (oracle : RawItem → Option AnalysisResult)
    (arxivFeed : List ArxivResult) (scholarFeed : List RawItem)
    (history_titles : List String) : RunState :=
  if (primary_state oracle arxivFeed history_titles).qualified_items.length <
      FINAL_SAVE_COUNT then
    fallback_loop oracle history_titles scholarFeed
      (primary_state oracle arxivFeed history_titles)
  else primary_state oracle arxivFeed history_titles

/-- Everything one invocation of `main` leaves behind. -/
structure RunOutput where
  analyzed_titles : List String
  qualified_items : List ScoredItem
  final_history : List String
  final_reports : List ScoredItem
  ding : Option (List ScoredItem × Option Nat)
  email_items : List ScoredItem
deriving DecidableEq

/-- One full run of `main`, given the adapter outputs, the oracle behaviour
and the loaded prior state.  When `qualified_items` is empty, `reports.json`
is not rewritten and no notification is attempted. -/
def run_main (oracle : RawItem → Option AnalysisResult)
    (arxivFeed : List ArxivResult) (scholarFeed : List RawItem)
    (history_titles : List String) (old_reports : List ScoredItem) : RunOutput :=
  let st2 := after_phases oracle arxivFeed scholarFeed history_titles
  let sorted := sortByScoreDesc st2.qualified_items
  { analyzed_titles := st2.new_analyzed_titles
    qualified_items := sorted
    final_history := save_history st2.new_analyzed_titles history_titles
    final_reports :=
      if st2.qualified_items = [] then old_reports
      else save_reports sorted old_reports
    ding := if st2.qualified_items = [] then none else ding_push sorted
    email_items :=
      if st2.qualified_items = [] then []
      else sorted.take MAX_EMAIL_ITEM_LIMIT }

/-! ### Basic lemmas about the acceptance step and the two phase loops -/

theorem accept_analyzed (result : AnalysisResult) (item : RawItem) (st : RunState) :
    (accept result item st).new_analyzed_titles = st.new_analyzed_titles := by
  unfold accept; split_ifs <;> rfl

theorem accept_length_le (result : AnalysisResult) (item : RawItem) (st : RunState) :
    (accept result item st).qualified_items.length ≤ st.qualified_items.length + 1 := by
  unfold accept; split_ifs <;> simp

theorem accept_qualified_mem (result : AnalysisResult) (item : RawItem) (st : RunState)
    (r : ScoredItem) (hr : r ∈ (accept result item st).qualified_items) :
    r ∈ st.qualified_items ∨ (r.title = item.title ∧ MIN_SCORE ≤ r.score) := by
  unfold accept at hr
  split_ifs at hr with hs
  · rcases List.mem_append.1 hr with h | h
    · exact Or.inl h
    · rcases List.mem_singleton.1 h with rfl
      exact Or.inr ⟨rfl, hs⟩
  · exact Or.inl hr

theorem primary_loop_quota (oracle : RawItem → Option AnalysisResult)
    (items : List RawItem) :
    ∀ st : RunState, st.qualified_items.length ≤ FINAL_SAVE_COUNT →
      (primary_loop oracle items st).qualified_items.length ≤ FINAL_SAVE_COUNT := by
  induction items with
  | nil => intro st h; simpa [primary_loop] using h
  | cons item rest ih =>
    intro st h
    by_cases hq : FINAL_SAVE_COUNT ≤ st.qualified_items.length
    · simpa [primary_loop, hq] using h
    · rw [primary_loop, if_neg hq]
      apply ih
      calc (accept (analyze_with_llm oracle item) item
              { st with new_analyzed_titles := st.new_analyzed_titles ++ [item.title]
                }).qualified_items.length
          ≤ st.qualified_items.length + 1 := accept_length_le _ _ _
        _ ≤ FINAL_SAVE_COUNT := Nat.succ_le_of_lt (Nat.lt_of_not_le hq)

theorem fallback_loop_quota (oracle : RawItem → Option AnalysisResult)
    (history_titles : List String) (items : List RawItem) :
    ∀ st : RunState, st.qualified_items.length ≤ FINAL_SAVE_COUNT →
      (fallback_loop oracle history_titles items st).qualified_items.length ≤
        FINAL_SAVE_COUNT := by
  induction items with
  | nil => intro st h; simpa [fallback_loop] using h
  | cons item rest ih =>
    intro st h
    by_cases hq : FINAL_SAVE_COUNT ≤ st.qualified_items.length
    · simpa [fallback_loop, hq] using h
    · rw [fallback_loop, if_neg hq]
      by_cases h1 : item.title ∈ history_titles
      · rw [if_pos h1]; exact ih st h
      · rw [if_neg h1]
        by_cases h2 : item.title ∈ st.new_analyzed_titles
        · rw [if_pos h2]; exact ih st h
        · rw [if_neg h2]
          apply ih
          calc (accept (analyze_with_llm oracle item) item
                  { st with new_analyzed_titles := st.new_analyzed_titles ++ [item.title]
                    }).qualified_items.length
              ≤ st.qualified_items.length + 1 := accept_length_le _ _ _
            _ ≤ FINAL_SAVE_COUNT := Nat.succ_le_of_lt (Nat.lt_of_not_le hq)

theorem after_phases_quota (oracle : RawItem → Option AnalysisResult)
    (arxivFeed : List ArxivResult) (scholarFeed : List RawItem)
    (history_titles : List String) :
    (after_phases oracle arxivFeed scholarFeed history_titles).qualified_items.length ≤
      FINAL_SAVE_COUNT := by
  have h1 : (primary_state oracle arxivFeed history_titles).qualified_items.length ≤
      FINAL_SAVE_COUNT := primary_loop_quota _ _ _ (by simp)
  unfold after_phases
  split_ifs
  · exact fallback_loop_quota _ _ _ _ h1
  · exact h1

/-- C2: at every point of a run `len(qualified_items) ≤ FINAL_SAVE_COUNT` (any
state satisfying the bound still satisfies it after either phase loop, and
both the primary-phase state and the end-of-phases state of an actual run
satisfy it), and the fallback phase is entered only when the primary phase
ended strictly below the quota: if the primary phase already reached
`FINAL_SAVE_COUNT`, the end-of-phases state is the primary state itself. -/
theorem C2_quota_ceiling (oracle : RawItem → Option AnalysisResult)
    (arxivFeed : List ArxivResult) (scholarFeed fbItems : List RawItem)
    (history_titles : List String) (items : List RawItem) (st : RunState)
    (h : st.qualified_items.length ≤ FINAL_SAVE_COUNT) :
    (primary_loop oracle items st).qualified_items.length ≤ FINAL_SAVE_COUNT ∧
    (fallback_loop oracle history_titles fbItems st).qualified_items.length ≤
      FINAL_SAVE_COUNT ∧
    (primary_state oracle arxivFeed history_titles).qualified_items.length ≤
      FINAL_SAVE_COUNT ∧
    (after_phases oracle arxivFeed scholarFeed history_titles).qualified_items.length ≤
      FINAL_SAVE_COUNT ∧
    (FINAL_SAVE_COUNT ≤
        (primary_state oracle arxivFeed history_titles).qualified_items.length →
      after_phases oracle arxivFeed scholarFeed history_titles =
        primary_state oracle arxivFeed history_titles) := by
  refine ⟨primary_loop_quota _ _ _ h, fallback_loop_quota _ _ _ _ h,
    primary_loop_quota _ _ _ (by simp), after_phases_quota _ _ _ _, fun hfull => ?_⟩
  unfold after_phases
  rw [if_neg (Nat.not_lt.mpr hfull)]

/-! ### Field equations of `run_main` and concrete example inputs -/

theorem run_main_analyzed (oracle : RawItem → Option AnalysisResult)
    (arxivFeed : List ArxivResult) (scholarFeed : List RawItem)
    (history_titles : List String) (old_reports : List ScoredItem) :
    (run_main oracle arxivFeed scholarFeed history_titles old_reports).analyzed_titles =
      (after_phases oracle arxivFeed scholarFeed history_titles).new_analyzed_titles := rfl

theorem run_main_qualified (oracle : RawItem → Option AnalysisResult)
    (arxivFeed : List ArxivResult) (scholarFeed : List RawItem)
    (history_titles : List String) (old_reports : List ScoredItem) :
    (run_main oracle arxivFeed scholarFeed history_titles old_reports).qualified_items =
      sortByScoreDesc
        (after_phases oracle arxivFeed scholarFeed history_titles).qualified_items := rfl

theorem run_main_final_history (oracle : RawItem → Option AnalysisResult)
    (arxivFeed : List ArxivResult) (scholarFeed : List RawItem)
    (history_titles : List String) (old_reports : List ScoredItem) :
    (run_main oracle arxivFeed scholarFeed history_titles old_reports).final_history =
      save_history
        (after_phases oracle arxivFeed scholarFeed history_titles).new_analyzed_titles
        history_titles := rfl

theorem run_main_final_reports (oracle : RawItem → Option AnalysisResult)
    (arxivFeed : List ArxivResult) (scholarFeed : List RawItem)
    (history_titles : List String) (old_reports : List ScoredItem) :
    (run_main oracle arxivFeed scholarFeed history_titles old_reports).final_reports =
      if (after_phases oracle arxivFeed scholarFeed history_titles).qualified_items = []
      then old_reports
      else save_reports
        (sortByScoreDesc
          (after_phases oracle arxivFeed scholarFeed history_titles).qualified_items)
        old_reports := rfl

/-- A scoring oracle whose every call fails. -/
def exFailOracle : RawItem → Option AnalysisResult := fun _ => none

/-- A scoring oracle that scores every candidate 10. -/
def exTenOracle : RawItem → Option AnalysisResult :=
  fun _ => some { score := 10, summary := "ok" }

/-- Sixteen relevant arXiv results with pairwise distinct titles. -/
def exBigFeed : List ArxivResult :=
  (List.range 16).map fun i =>
    { title := "t" ++ toString i, abstract := "", categories := ["cs.AI"] }

theorem C2_quota_ceiling_witness :
    (after_phases exTenOracle exBigFeed [] []).qualified_items.length ≤
      FINAL_SAVE_COUNT ∧
    after_phases exTenOracle exBigFeed [] [] = primary_state exTenOracle exBigFeed [] := by
  have h := C2_quota_ceiling exTenOracle exBigFeed [] [] [] []
      { new_analyzed_titles := [], qualified_items := [] } (by decide)
  exact ⟨h.2.2.2.1, h.2.2.2.2 (by decide)⟩

/-! ### Bounded growth of the two persisted stores -/

theorem save_history_length (new_titles history_titles : List String)
    (hh : history_titles.length ≤ MAX_HISTORY_SIZE) :
    (save_history new_titles history_titles).length ≤ MAX_HISTORY_SIZE := by
  unfold save_history
  split_ifs
  · exact hh
  · simp [Nat.min_le_left]

theorem save_reports_length (qualified_sorted old_reports : List ScoredItem) :
    (save_reports qualified_sorted old_reports).length ≤ MAX_REPORT_SIZE := by
  unfold save_reports
  simp [Nat.min_le_left]

/-- C3: after any run whose loaded prior stores respect their capacity
bounds, the persisted Seen-Ledger has length at most `MAX_HISTORY_SIZE` and
the persisted Curated-Archive has length at most `MAX_REPORT_SIZE`, for every
oracle behaviour and all adapter outputs. -/
theorem C3_bounded_growth (oracle : RawItem → Option AnalysisResult)
    (arxivFeed : List ArxivResult) (scholarFeed : List RawItem)
    (history_titles : List String) (old_reports : List ScoredItem)
    (hh : history_titles.length ≤ MAX_HISTORY_SIZE)
    (ha : old_reports.length ≤ MAX_REPORT_SIZE) :
    (run_main oracle arxivFeed scholarFeed history_titles
        old_reports).final_history.length ≤ MAX_HISTORY_SIZE ∧
    (run_main oracle arxivFeed scholarFeed history_titles
        old_reports).final_reports.length ≤ MAX_REPORT_SIZE := by
  constructor
  · rw [run_main_final_history]
    exact save_history_length _ _ hh
  · rw [run_main_final_reports]
    split_ifs
    · exact ha
    · exact save_reports_length _ _

theorem C3_bounded_growth_witness :
    (run_main exFailOracle exBigFeed [] [] []).final_history.length ≤
      MAX_HISTORY_SIZE ∧
    (run_main exFailOracle exBigFeed [] [] []).final_reports.length ≤
      MAX_REPORT_SIZE :=
  C3_bounded_growth exFailOracle exBigFeed [] [] [] (by decide) (by decide)

/-! ### No candidate carrying a ledger identity ever reaches the oracle -/

theorem fetch_go_mem (history_titles : List String) (target : Nat)
    (feed : List ArxivResult) :
    ∀ (acc : List RawItem) (item : RawItem),
      item ∈ fetch_arxiv_go history_titles target feed acc →
      item ∈ acc ∨ item.title ∉ history_titles := by
  induction feed with
  | nil =>
    intro acc item h
    exact Or.inl (by simpa [fetch_arxiv_go] using h)
  | cons r rest ih =>
    intro acc item h
    rw [fetch_arxiv_go] at h
    by_cases h1 : categoryOk r
    · rw [if_neg (not_not_intro h1)] at h
      by_cases h2 : r.title ∈ history_titles
      · rw [if_pos h2] at h
        exact ih acc item h
      · rw [if_neg h2] at h
        by_cases h3 : target ≤
            (acc ++ [({ title := r.title, abstract := r.abstract } : RawItem)]).length
        · rw [if_pos h3] at h
          rcases List.mem_append.1 h with h | h
          · exact Or.inl h
          · rcases List.mem_singleton.1 h with rfl
            exact Or.inr h2
        · rw [if_neg h3] at h
          rcases ih _ item h with h | h
          · rcases List.mem_append.1 h with h | h
            · exact Or.inl h
            · rcases List.mem_singleton.1 h with rfl
              exact Or.inr h2
          · exact Or.inr h
    · rw [if_pos h1] at h
      exact ih acc item h

theorem primary_loop_analyzed_forall (oracle : RawItem → Option AnalysisResult)
    (P : String → Prop) (items : List RawItem) :
    ∀ st : RunState, (∀ t ∈ st.new_analyzed_titles, P t) →
      (∀ i ∈ items, P i.title) →
      ∀ t ∈ (primary_loop oracle items st).new_analyzed_titles, P t := by
  induction items with
  | nil =>
    intro st hst _ t ht
    exact hst t (by simpa [primary_loop] using ht)
  | cons item rest ih =>
    intro st hst hitems t ht
    rw [primary_loop] at ht
    split_ifs at ht with hq
    · exact hst t ht
    · refine ih _ ?_ (fun i hi => hitems i (List.mem_cons_of_mem _ hi)) t ht
      intro u hu
      rw [accept_analyzed] at hu
      rcases List.mem_append.1 hu with h | h
      · exact hst u h
      · rcases List.mem_singleton.1 h with rfl
        exact hitems item (List.mem_cons_self _ _)

theorem fallback_loop_analyzed_not_hist (oracle : RawItem → Option AnalysisResult)
    (history_titles : List String) (items : List RawItem) :
    ∀ st : RunState, (∀ t ∈ st.new_analyzed_titles, t ∉ history_titles) →
      ∀ t ∈ (fallback_loop oracle history_titles items st).new_analyzed_titles,
        t ∉ history_titles := by
  induction items with
  | nil =>
    intro st hst t ht
    exact hst t (by simpa [fallback_loop] using ht)
  | cons item rest ih =>
    intro st hst t ht
    rw [fallback_loop] at ht
    split_ifs at ht with hq h1 h2
    · exact hst t ht
    · exact ih st hst t ht
    · exact ih st hst t ht
    · refine ih _ ?_ t ht
      intro u hu
      rw [accept_analyzed] at hu
      rcases List.mem_append.1 hu with h | h
      · exact hst u h
      · rcases List.mem_singleton.1 h with rfl
        exact h1

theorem after_phases_analyzed_not_hist (oracle : RawItem → Option AnalysisResult)
    (arxivFeed : List ArxivResult) (scholarFeed : List RawItem)
    (history_titles : List String) :
    ∀ t ∈ (after_phases oracle arxivFeed scholarFeed history_titles).new_analyzed_titles,
      t ∉ history_titles := by
  have hprim : ∀ t ∈ (primary_state oracle arxivFeed history_titles).new_analyzed_titles,
      t ∉ history_titles := by
    apply primary_loop_analyzed_forall oracle (fun u => u ∉ history_titles)
    · intro u hu
      simp at hu
    · intro i hi
      rcases fetch_go_mem _ _ _ _ i hi with h | h
      · simp at h
      · exact h
  unfold after_phases
  split_ifs
  · exact fallback_loop_analyzed_not_hist _ _ _ _ hprim
  · exact hprim

/-- C1: for every identity in the Seen-Ledger loaded at run start, no
candidate with that identity is ever submitted to the scoring oracle during
that run — `analyzed_titles` records exactly the titles handed to
`analyze_with_llm`, in both phases, and no ledger title ends up in it. -/
theorem C1_ledger_never_rescored (oracle : RawItem → Option AnalysisResult)
    (arxivFeed : List ArxivResult) (scholarFeed : List RawItem)
    (history_titles : List String) (old_reports : List ScoredItem)
    (t : String) (ht : t ∈ history_titles) :
    t ∉ (run_main oracle arxivFeed scholarFeed history_titles
      old_reports).analyzed_titles := by
  rw [run_main_analyzed]
  intro hmem
  exact after_phases_analyzed_not_hist oracle arxivFeed scholarFeed history_titles
    t hmem ht

/-- A feed where the first item carries the ledger title "A". -/
def exC1Feed : List ArxivResult :=
  [{ title := "A", abstract := "", categories := ["q-fin.TR"] },
   { title := "B", abstract := "", categories := ["cs.AI"] }]

theorem C1_ledger_never_rescored_witness :
    "A" ∉ (run_main exFailOracle exC1Feed
      [{ title := "A", abstract := "" }] ["A"] []).analyzed_titles :=
  C1_ledger_never_rescored exFailOracle exC1Feed
    [{ title := "A", abstract := "" }] ["A"] [] "A" (by decide)

/-! ### The stable descending sort: permutation and membership -/

theorem insertDesc_perm (x : ScoredItem) (l : List ScoredItem) :
    (insertDesc x l).Perm (x :: l) := by
  induction l with
  | nil => exact List.Perm.refl _
  | cons y ys ih =>
    unfold insertDesc
    split_ifs
    · exact List.Perm.refl _
    · exact (List.Perm.cons y ih).trans (List.Perm.swap x y ys)

theorem sortByScoreDesc_perm (l : List ScoredItem) :
    (sortByScoreDesc l).Perm l := by
  induction l with
  | nil => exact List.Perm.refl _
  | cons x xs ih =>
    exact (insertDesc_perm x (sortByScoreDesc xs)).trans (List.Perm.cons x ih)

theorem mem_sortByScoreDesc (l : List ScoredItem) (a : ScoredItem) :
    a ∈ sortByScoreDesc l ↔ a ∈ l :=
  (sortByScoreDesc_perm l).mem_iff

/-! ### Acceptance thresholds -/

theorem primary_loop_qualified_min (oracle : RawItem → Option AnalysisResult)
    (items : List RawItem) :
    ∀ st : RunState, (∀ r ∈ st.qualified_items, MIN_SCORE ≤ r.score) →
      ∀ r ∈ (primary_loop oracle items st).qualified_items, MIN_SCORE ≤ r.score := by
  induction items with
  | nil =>
    intro st hst r hr
    exact hst r (by simpa [primary_loop] using hr)
  | cons item rest ih =>
    intro st hst r hr
    rw [primary_loop] at hr
    split_ifs at hr with hq
    · exact hst r hr
    · refine ih _ ?_ r hr
      intro u hu
      rcases accept_qualified_mem _ _ _ u hu with h | h
      · exact hst u h
      · exact h.2

theorem fallback_loop_qualified_min (oracle : RawItem → Option AnalysisResult)
    (history_titles : List String) (items : List RawItem) :
    ∀ st : RunState, (∀ r ∈ st.qualified_items, MIN_SCORE ≤ r.score) →
      ∀ r ∈ (fallback_loop oracle history_titles items st).qualified_items,
        MIN_SCORE ≤ r.score := by
  induction items with
  | nil =>
    intro st hst r hr
    exact hst r (by simpa [fallback_loop] using hr)
  | cons item rest ih =>
    intro st hst r hr
    rw [fallback_loop] at hr
    split_ifs at hr with hq h1 h2
    · exact hst r hr
    · exact ih st hst r hr
    · exact ih st hst r hr
    · refine ih _ ?_ r hr
      intro u hu
      rcases accept_qualified_mem _ _ _ u hu with h | h
      · exact hst u h
      · exact h.2

theorem after_phases_qualified_min (oracle : RawItem → Option AnalysisResult)
    (arxivFeed : List ArxivResult) (scholarFeed : List RawItem)
    (history_titles : List String) :
    ∀ r ∈ (after_phases oracle arxivFeed scholarFeed history_titles).qualified_items,
      MIN_SCORE ≤ r.score := by
  have hprim : ∀ r ∈ (primary_state oracle arxivFeed history_titles).qualified_items,
      MIN_SCORE ≤ r.score :=
    primary_loop_qualified_min _ _ _ (by intro r hr; simp at hr)
  unfold after_phases
  split_ifs
  · exact fallback_loop_qualified_min _ _ _ _ hprim
  · exact hprim

theorem run_main_ding_eq (oracle : RawItem → Option AnalysisResult)
    (arxivFeed : List ArxivResult) (scholarFeed : List RawItem)
    (history_titles : List String) (old_reports : List ScoredItem) :
    (run_main oracle arxivFeed scholarFeed history_titles old_reports).ding =
      if (after_phases oracle arxivFeed scholarFeed history_titles).qualified_items = []
      then none
      else ding_push (sortByScoreDesc
        (after_phases oracle arxivFeed scholarFeed history_titles).qualified_items) := rfl

/-- C4: every item accepted into the run's batch (hence appended to the
Curated-Archive) has `score ≥ MIN_SCORE`, and every item of the DingTalk
push digest additionally has `score ≥ PUSH_THRESHOLD`. -/
theorem C4_acceptance_threshold (oracle : RawItem → Option AnalysisResult)
    (arxivFeed : List ArxivResult) (scholarFeed : List RawItem)
    (history_titles : List String) (old_reports : List ScoredItem) :
    (∀ r ∈ (run_main oracle arxivFeed scholarFeed history_titles
        old_reports).qualified_items, MIN_SCORE ≤ r.score) ∧
    (∀ (L : List ScoredItem) (n : Option Nat) (r : ScoredItem),
      (run_main oracle arxivFeed scholarFeed history_titles old_reports).ding =
        some (L, n) → r ∈ L → PUSH_THRESHOLD ≤ r.score) := by
  constructor
  · intro r hr
    rw [run_main_qualified, mem_sortByScoreDesc] at hr
    exact after_phases_qualified_min _ _ _ _ r hr
  · intro L n r hding hr
    rw [run_main_ding_eq] at hding
    by_cases hempty :
        (after_phases oracle arxivFeed scholarFeed history_titles).qualified_items = []
    · rw [if_pos hempty] at hding
      exact Option.noConfusion hding
    · rw [if_neg hempty] at hding
      unfold ding_push at hding
      by_cases htp : top_picks (sortByScoreDesc
          (after_phases oracle arxivFeed scholarFeed history_titles).qualified_items) = []
      · rw [if_pos htp] at hding
        exact Option.noConfusion hding
      · rw [if_neg htp] at hding
        have hinj := Option.some.inj hding
        have hL : L = ding_pushed_items (sortByScoreDesc
            (after_phases oracle arxivFeed scholarFeed history_titles).qualified_items) :=
          (congrArg Prod.fst hinj).symm
        subst hL
        have hr2 : r ∈ top_picks (sortByScoreDesc
            (after_phases oracle arxivFeed scholarFeed history_titles).qualified_items) :=
          List.take_subset _ _ hr
        have := List.mem_filter.1 hr2
        exact of_decide_eq_true this.2

/-- A single relevant arXiv result titled "w". -/
def exWFeed : List ArxivResult :=
  [{ title := "w", abstract := "", categories := ["cs.AI"] }]

theorem C4_acceptance_threshold_witness :
    MIN_SCORE ≤ ({ title := "w", score := 10, summary := "ok" } : ScoredItem).score ∧
    PUSH_THRESHOLD ≤ ({ title := "w", score := 10, summary := "ok" } : ScoredItem).score := by
  have h := C4_acceptance_threshold exTenOracle exWFeed [] [] []
  exact ⟨h.1 _ (by decide), h.2 [{ title := "w", score := 10, summary := "ok" }] none _
    (by decide) (by decide)⟩

/-! ### Oracle failures degrade to the fixed fallback result -/

theorem accept_fallback_result (item : RawItem) (st : RunState) :
    accept { score := 0, summary := "Error" } item st = st := by
  unfold accept
  rw [if_neg]
  intro h
  exact absurd h (by norm_num [MIN_SCORE])

/-- C8: when the scoring call for a candidate fails, `analyze_with_llm`
returns the fixed fallback `{score := 0, summary := "Error"}` instead of
raising; the primary loop then records the candidate's title in the
analyzed batch, leaves `qualified_items` unchanged (the fallback score 0 is
below `MIN_SCORE`), and continues with the remaining candidates. -/
theorem C8_oracle_fault_fallback (oracle : RawItem → Option AnalysisResult)
    (item : RawItem) (rest : List RawItem) (st : RunState)
    (hfail : oracle item = none)
    (hroom : st.qualified_items.length < FINAL_SAVE_COUNT) :
    analyze_with_llm oracle item = { score := 0, summary := "Error" } ∧
    (0 : ℚ) < MIN_SCORE ∧
    primary_loop oracle (item :: rest) st =
      primary_loop oracle rest
        { st with new_analyzed_titles := st.new_analyzed_titles ++ [item.title] } := by
  have ha : analyze_with_llm oracle item = { score := 0, summary := "Error" } := by
    unfold analyze_with_llm
    rw [hfail]
  refine ⟨ha, by norm_num [MIN_SCORE], ?_⟩
  rw [primary_loop, if_neg (Nat.not_le.mpr hroom), ha]
  show primary_loop oracle rest
      (accept { score := 0, summary := "Error" } item
        { st with new_analyzed_titles := st.new_analyzed_titles ++ [item.title] }) = _
  rw [accept_fallback_result]

theorem C8_oracle_fault_fallback_witness :
    analyze_with_llm exFailOracle { title := "w", abstract := "" } =
      { score := 0, summary := "Error" } ∧
    (0 : ℚ) < MIN_SCORE ∧
    primary_loop exFailOracle [{ title := "w", abstract := "" }]
        { new_analyzed_titles := [], qualified_items := [] } =
      primary_loop exFailOracle []
        { new_analyzed_titles := [] ++ ["w"], qualified_items := [] } :=
  C8_oracle_fault_fallback exFailOracle { title := "w", abstract := "" } []
    { new_analyzed_titles := [], qualified_items := [] } rfl (by decide)

/-! ### The finalize sort is a stable descending sort -/

theorem insertDesc_sorted (x : ScoredItem) (l : List ScoredItem)
    (hl : List.Sorted (fun a b : ScoredItem => b.score ≤ a.score) l) :
    List.Sorted (fun a b : ScoredItem => b.score ≤ a.score) (insertDesc x l) := by
  induction l with
  | nil => simp [insertDesc]
  | cons y ys ih =>
    rw [List.sorted_cons] at hl
    unfold insertDesc
    split_ifs with hxy
    · rw [List.sorted_cons]
      refine ⟨?_, List.sorted_cons.2 hl⟩
      intro b hb
      rcases List.mem_cons.1 hb with rfl | hb
      · exact hxy
      · exact le_trans (hl.1 b hb) hxy
    · rw [List.sorted_cons]
      refine ⟨?_, ih hl.2⟩
      intro b hb
      rcases List.mem_cons.1 ((insertDesc_perm x ys).mem_iff.1 hb) with rfl | hb
      · exact le_of_not_le hxy
      · exact hl.1 b hb

theorem insertDesc_filter (c : ℚ) (x : ScoredItem) (l : List ScoredItem) :
    (insertDesc x l).filter (fun r => r.score = c) =
      if x.score = c then x :: l.filter (fun r => r.score = c)
      else l.filter (fun r => r.score = c) := by
  induction l with
  | nil =>
    by_cases hx : x.score = c <;> simp [insertDesc, hx]
  | cons y ys ih =>
    unfold insertDesc
    by_cases hxy : y.score ≤ x.score
    · rw [if_pos hxy]
      by_cases hx : x.score = c <;> simp [List.filter_cons, hx]
    · rw [if_neg hxy]
      have hyx : x.score < y.score := not_le.1 hxy
      by_cases hx : x.score = c
      · have hy : ¬ (y.score = c) := by
          intro h
          rw [hx] at hyx
          rw [h] at hyx
          exact lt_irrefl c hyx
        rw [if_pos hx, List.filter_cons, if_neg (by simpa using hy), ih, if_pos hx,
          List.filter_cons, if_neg (by simpa using hy)]
      · rw [if_neg hx, List.filter_cons, List.filter_cons]
        by_cases hy : y.score = c
        · rw [if_pos (by simpa using hy), if_pos (by simpa using hy), ih, if_neg hx]
        · rw [if_neg (by simpa using hy), if_neg (by simpa using hy), ih, if_neg hx]

theorem sortByScoreDesc_sorted (l : List ScoredItem) :
    List.Sorted (fun a b : ScoredItem => b.score ≤ a.score) (sortByScoreDesc l) := by
  induction l with
  | nil => simp [sortByScoreDesc]
  | cons x xs ih => exact insertDesc_sorted x _ ih

theorem sortByScoreDesc_filter (c : ℚ) (l : List ScoredItem) :
    (sortByScoreDesc l).filter (fun r => r.score = c) =
      l.filter (fun r => r.score = c) := by
  induction l with
  | nil => rfl
  | cons x xs ih =>
    unfold sortByScoreDesc
    rw [insertDesc_filter]
    by_cases hx : x.score = c
    · rw [if_pos hx, ih, List.filter_cons, if_pos (by simpa using hx)]
    · rw [if_neg hx, ih, List.filter_cons, if_neg (by simpa using hx)]

/-- C5: the run's output list is the end-of-phases accepted list finalized by
a stable descending sort on score — it is non-increasing in score in
insertion order, it is a permutation of the accepted items in encounter
order, and for every score value the items carrying that score appear in
exactly their encounter order (primary-phase items before fallback-phase
items). -/
theorem C5_finalize_stable_sort (oracle : RawItem → Option AnalysisResult)
    (arxivFeed : List ArxivResult) (scholarFeed : List RawItem)
    (history_titles : List String) (old_reports : List ScoredItem) :
    List.Sorted (fun a b : ScoredItem => b.score ≤ a.score)
      (run_main oracle arxivFeed scholarFeed history_titles
        old_reports).qualified_items ∧
    (run_main oracle arxivFeed scholarFeed history_titles
        old_reports).qualified_items.Perm
      (after_phases oracle arxivFeed scholarFeed history_titles).qualified_items ∧
    ∀ c : ℚ,
      (run_main oracle arxivFeed scholarFeed history_titles
          old_reports).qualified_items.filter (fun r => r.score = c) =
        (after_phases oracle arxivFeed scholarFeed
          history_titles).qualified_items.filter (fun r => r.score = c) := by
  refine ⟨?_, ?_, ?_⟩ <;> simp only [run_main_qualified]
  · exact sortByScoreDesc_sorted _
  · exact sortByScoreDesc_perm _
  · intro c
    exact sortByScoreDesc_filter c _

/-! ### The DingTalk digest and its trailing notice -/

/-- Seven accepted items, six of them push-eligible, one below the push
threshold. -/
def exC6 : List ScoredItem :=
  [{ title := "a", score := 7, summary := "" },
   { title := "b", score := 7, summary := "" },
   { title := "c", score := 7, summary := "" },
   { title := "d", score := 7, summary := "" },
   { title := "e", score := 7, summary := "" },
   { title := "f", score := 7, summary := "" },
   { title := "g", score := 3, summary := "" }]

/-- C6 counterexample: with 7 accepted items of which 6 are push-eligible and
`DINGTALK_PUSH_LIMIT = 5`, the digest does hold exactly 5 items, but the
appended notice counts `accepted − limit = 2`, not
`push-eligible − limit = 1` as the claim states. -/
theorem C6_dingtalk_notice_counterexample :
    DINGTALK_PUSH_LIMIT < (top_picks exC6).length ∧
    (ding_pushed_items exC6).length = DINGTALK_PUSH_LIMIT ∧
    (top_picks exC6).length - DINGTALK_PUSH_LIMIT = 1 ∧
    ding_notice exC6 = some 2 ∧
    ding_notice exC6 ≠ some ((top_picks exC6).length - DINGTALK_PUSH_LIMIT) := by
  decide

/-- C6 (amended): when at least one accepted item is push-eligible, the
DingTalk message carries `top_picks` truncated to `DINGTALK_PUSH_LIMIT`
items — so exactly the limit whenever more are eligible — and the trailing
notice is governed by the TOTAL accepted count, not the push-eligible count:
it is appended exactly when `len(accepted) > DINGTALK_PUSH_LIMIT`, counting
`len(accepted) − DINGTALK_PUSH_LIMIT` (the items that went to the e-mail
digest instead), and is absent when the accepted count fits the limit. -/
theorem C6_dingtalk_notice_amended (qualified_items : List ScoredItem)
    (h : top_picks qualified_items ≠ []) :
    ding_push qualified_items =
      some (ding_pushed_items qualified_items, ding_notice qualified_items) ∧
    (ding_pushed_items qualified_items).length =
      min DINGTALK_PUSH_LIMIT (top_picks qualified_items).length ∧
    (DINGTALK_PUSH_LIMIT < qualified_items.length →
      ding_notice qualified_items =
        some (qualified_items.length - DINGTALK_PUSH_LIMIT)) ∧
    (qualified_items.length ≤ DINGTALK_PUSH_LIMIT →
      ding_notice qualified_items = none) := by
  refine ⟨?_, ?_, fun hl => ?_, fun hl => ?_⟩
  · unfold ding_push
    rw [if_neg h]
  · unfold ding_pushed_items
    simp
  · unfold ding_notice
    rw [if_pos hl]
  · unfold ding_notice
    rw [if_neg (Nat.not_lt.mpr hl)]

theorem C6_dingtalk_notice_amended_witness :
    ding_push exC6 = some (ding_pushed_items exC6, ding_notice exC6) ∧
    ding_notice exC6 = some (exC6.length - DINGTALK_PUSH_LIMIT) := by
  have h := C6_dingtalk_notice_amended exC6 (by decide)
  exact ⟨h.1, h.2.2.1 (by decide)⟩

/-! ### Persistence read faults -/

/-- C7 counterexample: a malformed Curated-Archive file is not treated as
empty prior state — the `json.load` of `reports.json` has no exception
handler, so the read fault propagates and aborts the run. -/
theorem C7_archive_read_fault_counterexample :
    load_old_reports ReadResult.malformed = Except.error () := rfl

/-- C7 (amended): the Seen-Ledger read tolerates both a missing and a
malformed file (empty prior state in either case), and the Curated-Archive
read tolerates a missing file — but a malformed archive file is a fatal
error, not empty prior state. -/
theorem C7_persistence_fault_amended :
    load_history_titles ReadResult.missing = [] ∧
    load_history_titles ReadResult.malformed = [] ∧
    (∀ v : List String, load_history_titles (ReadResult.ok v) = v) ∧
    load_old_reports ReadResult.missing = Except.ok [] ∧
    (load_old_reports ReadResult.malformed).isOk = false :=
  ⟨rfl, rfl, fun _ => rfl, rfl, rfl⟩

/-! ### Duplicate identities in the persisted ledger -/

/-- Two relevant arXiv results repeating one title. -/
def exDupFeed : List ArxivResult :=
  [{ title := "T", abstract := "", categories := ["cs.AI"] },
   { title := "T", abstract := "", categories := ["cs.AI"] }]

/-- C9 counterexample: starting from the duplicate-free (empty) ledger, a
primary feed repeating one unseen title makes the run analyze that title
twice — the primary loop never checks the same-run analyzed batch — and the
persisted ledger ends up with a duplicate identity. -/
theorem C9_ledger_duplicates_counterexample :
    ([] : List String).Nodup ∧
    (run_main exFailOracle exDupFeed [] [] []).final_history = ["T", "T"] ∧
    ¬ (run_main exFailOracle exDupFeed [] [] []).final_history.Nodup := by
  decide

theorem fetch_go_titles_sublist (history_titles : List String) (target : Nat)
    (feed : List ArxivResult) :
    ∀ acc : List RawItem,
      ((fetch_arxiv_go history_titles target feed acc).map RawItem.title).Sublist
        (acc.map RawItem.title ++ feed.map ArxivResult.title) := by
  induction feed with
  | nil =>
    intro acc
    simp [fetch_arxiv_go]
  | cons r rest ih =>
    intro acc
    have hskip : ((fetch_arxiv_go history_titles target rest acc).map
        RawItem.title).Sublist
          (acc.map RawItem.title ++ (r :: rest).map ArxivResult.title) := by
      refine (ih acc).trans ?_
      rw [List.map_cons]
      exact List.Sublist.append_left (List.sublist_cons_self _ _) _
    rw [fetch_arxiv_go]
    by_cases h1 : categoryOk r
    · rw [if_neg (not_not_intro h1)]
      by_cases h2 : r.title ∈ history_titles
      · rw [if_pos h2]
        exact hskip
      · rw [if_neg h2]
        by_cases h3 : target ≤
            (acc ++ [({ title := r.title, abstract := r.abstract } : RawItem)]).length
        · rw [if_pos h3, List.map_append, List.map_cons]
          exact List.Sublist.append_left
            (List.cons_sublist_cons.2 (List.nil_sublist _)) _
        · rw [if_neg h3]
          have := ih (acc ++ [({ title := r.title, abstract := r.abstract } : RawItem)])
          rw [List.map_append] at this
          refine this.trans ?_
          rw [List.append_assoc, List.map_cons]
          exact List.Sublist.refl _
    · rw [if_pos h1]
      exact hskip

theorem primary_loop_analyzed_nodup (oracle : RawItem → Option AnalysisResult)
    (items : List RawItem) :
    ∀ st : RunState,
      st.new_analyzed_titles.Nodup →
      (items.map RawItem.title).Nodup →
      (∀ t ∈ st.new_analyzed_titles, t ∉ items.map RawItem.title) →
      (primary_loop oracle items st).new_analyzed_titles.Nodup := by
  induction items with
  | nil =>
    intro st hst _ _
    simpa [primary_loop] using hst
  | cons item rest ih =>
    intro st hst hitems hdisj
    rw [primary_loop]
    split_ifs with hq
    · exact hst
    · rw [List.map_cons, List.nodup_cons] at hitems
      apply ih
      · rw [accept_analyzed]
        refine List.Nodup.append hst (List.nodup_singleton _) ?_
        intro a ha hb
        rcases List.mem_singleton.1 hb with rfl
        exact hdisj _ ha (by rw [List.map_cons]; exact List.mem_cons_self _ _)
      · exact hitems.2
      · intro t ht
        rw [accept_analyzed] at ht
        rcases List.mem_append.1 ht with h | h
        · intro hmem
          exact hdisj t h (by rw [List.map_cons]; exact List.mem_cons_of_mem _ hmem)
        · rcases List.mem_singleton.1 h with rfl
          exact hitems.1

theorem fallback_loop_analyzed_nodup (oracle : RawItem → Option AnalysisResult)
    (history_titles : List String) (items : List RawItem) :
    ∀ st : RunState, st.new_analyzed_titles.Nodup →
      (fallback_loop oracle history_titles items st).new_analyzed_titles.Nodup := by
  induction items with
  | nil =>
    intro st hst
    simpa [fallback_loop] using hst
  | cons item rest ih =>
    intro st hst
    rw [fallback_loop]
    split_ifs with hq h1 h2
    · exact hst
    · exact ih st hst
    · exact ih st hst
    · apply ih
      rw [accept_analyzed]
      refine List.Nodup.append hst (List.nodup_singleton _) ?_
      intro a ha hb
      rcases List.mem_singleton.1 hb with rfl
      exact h2 ha

theorem after_phases_analyzed_nodup (oracle : RawItem → Option AnalysisResult)
    (arxivFeed : List ArxivResult) (scholarFeed : List RawItem)
    (history_titles : List String)
    (hfeed : (arxivFeed.map ArxivResult.title).Nodup) :
    (after_phases oracle arxivFeed scholarFeed
      history_titles).new_analyzed_titles.Nodup := by
  have hcand : ((fetch_arxiv_smart history_titles arxivFeed).map
      RawItem.title).Nodup := by
    have hsub := fetch_go_titles_sublist history_titles CANDIDATE_POOL_SIZE arxivFeed []
    rw [List.map_nil, List.nil_append] at hsub
    exact List.Nodup.sublist hsub hfeed
  have hprim : (primary_state oracle arxivFeed
      history_titles).new_analyzed_titles.Nodup := by
    apply primary_loop_analyzed_nodup oracle _ _ (List.nodup_nil) hcand
    intro t ht
    simp at ht
  unfold after_phases
  split_ifs
  · exact fallback_loop_analyzed_nodup _ _ _ _ hprim
  · exact hprim

/-- C9 (amended): after a run starting from a duplicate-free ledger the
persisted Seen-Ledger is duplicate-free within its retained window, for every
fallback-adapter output and oracle behaviour — PROVIDED the primary adapter's
output repeats no title.  (Duplicates inside the fallback output and across
the two phases are suppressed by the same-run analyzed-batch check, but the
primary loop has no such check, so a repeated title in the primary feed does
produce a duplicated ledger, as the counterexample shows.) -/
theorem C9_ledger_nodup_amended (oracle : RawItem → Option AnalysisResult)
    (arxivFeed : List ArxivResult) (scholarFeed : List RawItem)
    (history_titles : List String) (old_reports : List ScoredItem)
    (hh : history_titles.Nodup)
    (hfeed : (arxivFeed.map ArxivResult.title).Nodup) :
    (run_main oracle arxivFeed scholarFeed history_titles
      old_reports).final_history.Nodup := by
  rw [run_main_final_history]
  unfold save_history
  split_ifs
  · exact hh
  · refine List.Nodup.sublist (List.take_sublist _ _) ?_
    refine List.Nodup.append
      (after_phases_analyzed_nodup oracle arxivFeed scholarFeed history_titles hfeed)
      hh ?_
    intro a ha hb
    exact after_phases_analyzed_not_hist oracle arxivFeed scholarFeed history_titles
      a ha hb

theorem C9_ledger_nodup_amended_witness :
    (run_main exFailOracle exWFeed [] ["H"] []).final_history.Nodup :=
  C9_ledger_nodup_amended exFailOracle exWFeed [] ["H"] [] (by decide) (by decide)

/-! ### The deduplication identity key -/

/-- Modelled from the spec: the Normalizer's identity key, "trimmed title
string" — the title with leading and trailing whitespace removed.  No such
normalization exists anywhere in `main.py`; this definition follows the
spec's words so it can be compared with the code's raw-title membership
tests. -/
def spec_trimmed_identity (title : String) : String :=
  ⟨((title.toList.dropWhile Char.isWhitespace).reverse.dropWhile
      Char.isWhitespace).reverse⟩

/-- A single relevant arXiv result whose title carries a leading space. -/
def exTrimFeed : List ArxivResult :=
  [{ title := " T", abstract := "", categories := ["cs.AI"] }]

/-- C10 counterexample: the candidate titled " T" trims to the ledger entry
"T", so under the claim it would be treated as already seen — yet the run
submits it to the oracle: the membership tests compare raw titles, with no
trimming, so titles differing only in surrounding whitespace are distinct
identities. -/
theorem C10_trimmed_identity_counterexample :
    spec_trimmed_identity " T" = spec_trimmed_identity "T" ∧
    "T" ∈ (["T"] : List String) ∧
    (run_main exFailOracle exTrimFeed [] ["T"] []).analyzed_titles = [" T"] := by
  decide

/-- C10 (amended): the deduplication identity is the EXACT title string,
compared by literal string equality with no whitespace normalization: an
arXiv result whose raw title is in the ledger is dropped by the scan without
being emitted, and a fallback candidate whose raw title is in the ledger is
skipped without being scored. -/
theorem C10_exact_identity_amended (oracle : RawItem → Option AnalysisResult)
    (history_titles : List String) (target : Nat) (r : ArxivResult)
    (feedRest : List ArxivResult) (acc : List RawItem)
    (item : RawItem) (rest : List RawItem) (st : RunState)
    (hr : r.title ∈ history_titles)
    (hitem : item.title ∈ history_titles)
    (hroom : st.qualified_items.length < FINAL_SAVE_COUNT) :
    fetch_arxiv_go history_titles target (r :: feedRest) acc =
      fetch_arxiv_go history_titles target feedRest acc ∧
    fallback_loop oracle history_titles (item :: rest) st =
      fallback_loop oracle history_titles rest st := by
  constructor
  · rw [fetch_arxiv_go]
    by_cases h1 : categoryOk r
    · rw [if_neg (not_not_intro h1), if_pos hr]
    · rw [if_pos h1]
  · rw [fallback_loop, if_neg (Nat.not_le.mpr hroom), if_pos hitem]

theorem C10_exact_identity_amended_witness :
    fetch_arxiv_go ["T"] CANDIDATE_POOL_SIZE
        [{ title := "T", abstract := "", categories := ["cs.AI"] }] [] =
      fetch_arxiv_go ["T"] CANDIDATE_POOL_SIZE [] [] ∧
    fallback_loop exFailOracle ["T"] [{ title := "T", abstract := "" }]
        { new_analyzed_titles := [], qualified_items := [] } =
      fallback_loop exFailOracle ["T"] []
        { new_analyzed_titles := [], qualified_items := [] } :=
  C10_exact_identity_amended exFailOracle ["T"] CANDIDATE_POOL_SIZE
    { title := "T", abstract := "", categories := ["cs.AI"] } [] []
    { title := "T", abstract := "" } []
    { new_analyzed_titles := [], qualified_items := [] }
    (by decide) (by decide) (by decide)

end QuantDaily
